import Mathlib

set_option maxHeartbeats 1000000
set_option maxRecDepth 100000

namespace NoscriptChat

/-- Number of updates to keep in history, src/main.go line 15. -/
def historyLimit : Nat := 20

/-- Maximum message length in bytes, src/main.go line 21. -/
def maxMsgLen : Nat := 1024

/-- Number of buffered messages per connection, src/main.go line 24. -/
def bufferSize : Nat := 5

/-- An update: timestamp and message, the Go struct Update, src/main.go 129-132. -/
structure Update where
  timestamp : String
  message : String
  deriving DecidableEq

/-- A topic, src/main.go 60-65: the set of subscriber channels, identified here by
numeric ids, and the bounded history.  The two mutexes of the Go struct only guard
concurrent access and have no sequential content. -/
structure Topic where
  chans : Finset Nat
  history : List Update
  deriving DecidableEq

/-- NewTopic, src/main.go 67-74: empty subscriber set, empty history. -/
def NewTopic : Topic := ⟨∅, []⟩

/-- Queue state of every channel: channel id to its FIFO list of pending payloads,
front of the list being the next payload the connection driver will receive. -/
def Queues : Type := Nat → List String

/-- Non-blocking channel send: the Go select with a default case on a channel with
capacity bufferSize enqueues exactly when the queue has spare room and otherwise
drops the payload, src/main.go 91-95 and 107-111. -/
def trySend (q : List String) (data : String) : List String :=
  if q.length < bufferSize then q ++ [data] else q

/-- Topic.append, src/main.go 76-83: push the update, then slide the window down to
the last historyLimit entries. -/
def Topic.append (t : Topic) (update : Update) : Topic :=
  if (t.history ++ [update]).length > historyLimit then
    ⟨t.chans, (t.history ++ [update]).drop ((t.history ++ [update]).length - historyLimit)⟩
  else ⟨t.chans, t.history ++ [update]⟩

/-- Decimal digit character. -/
def digitChar (n : Nat) : Char := Char.ofNat (48 + n)

/-- Digit extraction loop, structurally recursive on a fuel argument that is
always large enough when called through natDigits. -/
def natDigitsAux : Nat → Nat → List Char
  | 0, _ => []
  | fuel + 1, n =>
      if n < 10 then [digitChar n]
      else natDigitsAux fuel (n / 10) ++ [digitChar (n % 10)]

/-- Decimal digits of a natural number, most significant first; models the integer
rendering of Go fmt. -/
def natDigits (n : Nat) : List Char := natDigitsAux (n + 1) n

/-- Decimal rendering of a natural number, as the %d verb of Go fmt produces. -/
def natString (n : Nat) : String := String.mk (natDigits n)

/-- The subscriber-count fragment rendered by Topic.updateCount, src/main.go 86-87. -/
def countFragment (n : Nat) : String :=
  "<style>#nc::before\x7bcontent:\"" ++ natString n ++ "\"\x7d</style>"

/-- Topic.updateCount, src/main.go 85-97: render the subscriber count and try-send
it to every subscriber channel. -/
def Topic.updateCount (t : Topic) (q : Queues) : Queues :=
  fun c => if c ∈ t.chans then trySend (q c) (countFragment t.chans.card) else q c

/-- The live-update fragment rendered by Topic.send, src/main.go 101-102. -/
def liveFragment (u : Update) : String :=
  "<div class=\"new\"><p>" ++ u.message ++ "</p><time>" ++ u.timestamp ++ "</time></div>"

/-- Topic.send, src/main.go 99-113: append the update to history, render the live
fragment, and try-send it to every subscriber channel. -/
def Topic.send (t : Topic) (update : Update) (q : Queues) : Topic × Queues :=
  (Topic.append t update,
   fun c => if c ∈ (Topic.append t update).chans then trySend (q c) (liveFragment update)
            else q c)

/-- The history fragment rendered by Topic.sendHistory, src/main.go 116. -/
def histFragment (u : Update) : String :=
  "<div><p>" ++ u.message ++ "</p><time>" ++ u.timestamp ++ "</time></div>"

/-- The write loop of Topic.sendHistory, src/main.go 119-125: ok says whether the
k-th Write call on the response succeeds; the result collects the fragments passed
to Write, in order, and reports whether all writes succeeded; false means the loop
stopped at a failed write and sendHistory returned that error. -/
def writeSeq (us : List Update) (ok : Nat → Bool) (k : Nat) : List String × Bool :=
  match us with
  | [] => ([], true)
  | u :: rest =>
      if ok k then
        (histFragment u :: (writeSeq rest ok (k + 1)).1, (writeSeq rest ok (k + 1)).2)
      else ([histFragment u], false)

/-- Topic.sendHistory, src/main.go 115-127. -/
def Topic.sendHistory (t : Topic) (ok : Nat → Bool) : List String × Bool :=
  writeSeq t.history ok 0

/-- The registry App, src/main.go 134-144: a mapping from topic name to Topic. -/
structure App where
  topics : String → Option Topic

/-- The subscriber-set insertion performed by App.addChan, src/main.go 157. -/
def Topic.subscribe (t : Topic) (ch : Nat) : Topic := ⟨insert ch t.chans, t.history⟩

/-- The subscriber-set deletion performed by App.removeChan, src/main.go 170. -/
def Topic.unsubscribe (t : Topic) (ch : Nat) : Topic := ⟨t.chans.erase ch, t.history⟩

/-- App.addChan, src/main.go 146-159: look up the topic, creating it via NewTopic
when absent, insert the channel into its subscriber set, and return the updated
registry together with the topic. -/
def App.addChan (app : App) (topic : String) (ch : Nat) : App × Topic :=
  match app.topics topic with
  | some t =>
      (⟨fun n => if n = topic then some (Topic.subscribe t ch) else app.topics n⟩,
       Topic.subscribe t ch)
  | none =>
      (⟨fun n => if n = topic then some (Topic.subscribe NewTopic ch) else app.topics n⟩,
       Topic.subscribe NewTopic ch)

/-- App.removeChan, src/main.go 161-174: when the topic exists, delete the channel
from its subscriber set, and drop the topic from the registry when the set becomes
empty; when the topic is absent, do nothing. -/
def App.removeChan (app : App) (topic : String) (ch : Nat) : App :=
  match app.topics topic with
  | none => app
  | some t =>
      if (Topic.unsubscribe t ch).chans.card = 0 then
        ⟨fun n => if n = topic then none else app.topics n⟩
      else ⟨fun n => if n = topic then some (Topic.unsubscribe t ch) else app.topics n⟩

/-- One character of Go template.HTMLEscapeString: double quote, apostrophe,
ampersand, angle brackets and the NUL byte are replaced, everything else is kept. -/
def escapeChar (c : Char) : List Char :=
  if c = Char.ofNat 34 then ['&', '#', '3', '4', ';']
  else if c = Char.ofNat 39 then ['&', '#', '3', '9', ';']
  else if c = '&' then ['&', 'a', 'm', 'p', ';']
  else if c = '<' then ['&', 'l', 't', ';']
  else if c = '>' then ['&', 'g', 't', ';']
  else if c = Char.ofNat 0 then [Char.ofNat 0xFFFD]
  else [c]

/-- Go template.HTMLEscapeString over the characters of the message, src/main.go 232. -/
def htmlEscape (s : List Char) : List Char := (s.map escapeChar).flatten

/-- Go unicode.IsSpace on the Latin-1 range: the whitespace strings.TrimSpace strips. -/
def goIsSpace (c : Char) : Bool :=
  c == ' ' || c == Char.ofNat 9 || c == Char.ofNat 10 || c == Char.ofNat 11 ||
  c == Char.ofNat 12 || c == Char.ofNat 13 || c == Char.ofNat 0x85 || c == Char.ofNat 0xA0

/-- Go strings.TrimSpace, src/main.go 233: drop whitespace from both ends. -/
def trimSpace (s : List Char) : List Char :=
  List.rdropWhile goIsSpace (s.dropWhile goIsSpace)

/-- UTF-8 encoded length of one character; Go len() on a string counts bytes. -/
def utf8Len (c : Char) : Nat :=
  if c.toNat < 0x80 then 1 else if c.toNat < 0x800 then 2
  else if c.toNat < 0x10000 then 3 else 4

/-- Go len of a string: its number of UTF-8 bytes. -/
def byteLen (s : List Char) : Nat := (s.map utf8Len).sum

/-- A wall-clock UTC time, component-wise. -/
structure DateTime where
  year : Nat
  month : Nat
  day : Nat
  hour : Nat
  minute : Nat
  second : Nat

/-- Left zero-padding of a digit string to a field width, as Go time formatting
pads its numeric fields. -/
def zeroPad (w : Nat) (s : List Char) : List Char :=
  List.replicate (w - s.length) (digitChar 0) ++ s

/-- Go time.Format with the layout string 2006-01-02 15:04:05, applied to a UTC
wall-clock time, src/main.go 235. -/
def formatTimestamp (d : DateTime) : String :=
  String.mk (zeroPad 4 (natDigits d.year) ++ '-' ::
    (zeroPad 2 (natDigits d.month) ++ '-' ::
      (zeroPad 2 (natDigits d.day) ++ ' ' ::
        (zeroPad 2 (natDigits d.hour) ++ ':' ::
          (zeroPad 2 (natDigits d.minute) ++ ':' :: zeroPad 2 (natDigits d.second))))))

/-- App.PostHandler, src/main.go 216-239: look up the topic (absent topic is a
no-op redirect); reject a raw message longer than maxMsgLen bytes; HTML-escape and
trim the message; when the result is non-empty, construct the Update with the
formatted current UTC time and hand it to Topic.send. -/
def App.PostHandler (app : App) (topic : String) (rawMsg : List Char) (now : DateTime)
    (q : Queues) : App × Queues :=
  match app.topics topic with
  | none => (app, q)
  | some t =>
      if byteLen rawMsg > maxMsgLen then (app, q)
      else if 0 < (trimSpace (htmlEscape rawMsg)).length then
        (⟨fun n => if n = topic then
            some (Topic.send t ⟨formatTimestamp now, String.mk (trimSpace (htmlEscape rawMsg))⟩ q).1
          else app.topics n⟩,
         (Topic.send t ⟨formatTimestamp now, String.mk (trimSpace (htmlEscape rawMsg))⟩ q).2)
      else (app, q)

/-- A sequence of broadcasts on one topic via Topic.send. -/
def sendAll (t : Topic) (us : List Update) (q : Queues) : Topic × Queues :=
  match us with
  | [] => (t, q)
  | u :: rest => sendAll (Topic.send t u q).1 rest ((Topic.send t u q).2)

/-- Successive subscriber-set insertions: the effect on one topic object of
successive App.addChan calls for distinct connections. -/
def subscribeAll (t : Topic) (cs : List Nat) : Topic := cs.foldl Topic.subscribe t

/-- Successive subscriber-set deletions: the effect on one topic object of
successive App.removeChan calls. -/
def unsubscribeAll (t : Topic) (cs : List Nat) : Topic := cs.foldl Topic.unsubscribe t

/-- The sliding window of the last historyLimit entries. -/
def lastWindow (xs : List Update) : List Update := xs.drop (xs.length - historyLimit)

theorem lastWindow_length (xs : List Update) :
    (lastWindow xs).length = min xs.length historyLimit := by
  simp only [lastWindow, List.length_drop]
  omega

theorem append_history (t : Topic) (u : Update) :
    (Topic.append t u).history = lastWindow (t.history ++ [u]) := by
  unfold Topic.append lastWindow
  split
  · rfl
  · next h =>
    simp only
    rw [Nat.sub_eq_zero_of_le (by omega), List.drop_zero]

theorem append_chans (t : Topic) (u : Update) :
    (Topic.append t u).chans = t.chans := by
  unfold Topic.append
  split <;> rfl

theorem lastWindow_append (xs ys : List Update) :
    lastWindow (lastWindow xs ++ ys) = lastWindow (xs ++ ys) := by
  unfold lastWindow
  by_cases h : xs.length ≤ historyLimit
  · rw [Nat.sub_eq_zero_of_le h, List.drop_zero]
  · rw [List.drop_append_eq_append_drop, List.drop_append_eq_append_drop, List.drop_drop]
    have hlen : (xs.drop (xs.length - historyLimit)).length = historyLimit := by
      rw [List.length_drop]; omega
    congr 2 <;> simp only [List.length_append, List.length_drop, hlen] <;> omega

theorem sendAll_history (us : List Update) :
    ∀ (t : Topic) (q : Queues), t.history.length ≤ historyLimit →
      (sendAll t us q).1.history = lastWindow (t.history ++ us) := by
  induction us with
  | nil =>
      intro t q ht
      unfold sendAll lastWindow
      simp only [List.append_nil]
      rw [Nat.sub_eq_zero_of_le ht, List.drop_zero]
  | cons u rest ih =>
      intro t q ht
      show (sendAll (Topic.send t u q).1 rest ((Topic.send t u q).2)).1.history = _
      have h1 : (Topic.send t u q).1 = Topic.append t u := rfl
      rw [h1, ih (Topic.append t u) _ (by rw [append_history, lastWindow_length]; omega)]
      rw [append_history, lastWindow_append, List.append_assoc]
      simp

/-- C1: after any sequence of N broadcasts on one topic starting from an empty
history, the history has length min N historyLimit, and its entries are exactly
the most recent min N historyLimit broadcast updates in arrival order, oldest
first; on overflow the oldest entries are evicted FIFO. -/
theorem broadcast_history_bound (us : List Update) (q : Queues) :
    (sendAll NewTopic us q).1.history = us.drop (us.length - historyLimit)
  ∧ (sendAll NewTopic us q).1.history.length = min us.length historyLimit := by
  have h := sendAll_history us NewTopic q (by simp [NewTopic])
  have h2 : (NewTopic.history ++ us) = us := by simp [NewTopic]
  rw [h2] at h
  exact ⟨h, by rw [h]; exact lastWindow_length us⟩

/-- C2: a single broadcast enqueues exactly one payload, byte-identical across
channels, namely the rendered live fragment, on each subscribed channel whose
queue has spare capacity; a channel whose queue already holds bufferSize payloads
receives nothing from that broadcast, its queue unchanged; the full channel does
not prevent delivery to the other channels, since every channel is settled by the
statement independently of the queues of the others; channels outside the
subscriber set are untouched. -/
theorem send_fanout (t : Topic) (u : Update) (q : Queues) (c : Nat) :
    (c ∈ t.chans → (q c).length < bufferSize →
      (Topic.send t u q).2 c = q c ++ [liveFragment u])
  ∧ (c ∈ t.chans → (q c).length = bufferSize →
      (Topic.send t u q).2 c = q c)
  ∧ (c ∉ t.chans → (Topic.send t u q).2 c = q c) := by
  refine ⟨fun hc hlen => ?_, fun hc hlen => ?_, fun hc => ?_⟩ <;>
    simp only [Topic.send, trySend, append_chans]
  · rw [if_pos hc, if_pos hlen]
  · rw [if_pos hc, if_neg (by omega)]
  · rw [if_neg hc]

/-- C2 witness: two subscribed channels, one with an empty queue and one already
full, and one unsubscribed channel. -/
theorem send_fanout_witness :
    (Topic.send ⟨{1, 2}, []⟩ ⟨"T", "A"⟩
        (fun c => if c = 2 then ["a", "b", "c", "d", "e"] else []) ).2 1
      = ["<div class=\"new\"><p>A</p><time>T</time></div>"]
  ∧ (Topic.send ⟨{1, 2}, []⟩ ⟨"T", "A"⟩
        (fun c => if c = 2 then ["a", "b", "c", "d", "e"] else []) ).2 2
      = ["a", "b", "c", "d", "e"]
  ∧ (Topic.send ⟨{1, 2}, []⟩ ⟨"T", "A"⟩
        (fun c => if c = 2 then ["a", "b", "c", "d", "e"] else []) ).2 3
      = [] := by
  refine ⟨?_, ?_, ?_⟩
  · exact (send_fanout ⟨{1, 2}, []⟩ ⟨"T", "A"⟩ _ 1).1 (by decide) (by decide)
  · exact (send_fanout ⟨{1, 2}, []⟩ ⟨"T", "A"⟩ _ 2).2.1 (by decide) (by decide)
  · exact (send_fanout ⟨{1, 2}, []⟩ ⟨"T", "A"⟩ _ 3).2.2 (by decide)

theorem writeSeq_ok (us : List Update) : ∀ (ok : Nat → Bool) (k : Nat),
    (∀ i, i < us.length → ok (k + i) = true) →
    writeSeq us ok k = (us.map histFragment, true) := by
  induction us with
  | nil => intro ok k _; rfl
  | cons u rest ih =>
      intro ok k h
      have h0 : ok k = true := by simpa using h 0 (by simp)
      have hrest : writeSeq rest ok (k + 1) = (rest.map histFragment, true) := by
        refine ih ok (k + 1) fun i hi => ?_
        have heq : k + 1 + i = k + (i + 1) := by omega
        rw [heq]
        exact h (i + 1) (by simpa using hi)
      simp [writeSeq, h0, hrest]

theorem writeSeq_fail (us : List Update) : ∀ (ok : Nat → Bool) (k j : Nat),
    j < us.length → (∀ i, i < j → ok (k + i) = true) → ok (k + j) = false →
    writeSeq us ok k = ((us.take (j + 1)).map histFragment, false) := by
  induction us with
  | nil => intro ok k j hj _ _; simp at hj
  | cons u rest ih =>
      intro ok k j hj hpre hfail
      cases j with
      | zero =>
          have h0 : ok k = false := by simpa using hfail
          simp [writeSeq, h0]
      | succ j =>
          have h0 : ok k = true := by simpa using hpre 0 (by omega)
          have hrest : writeSeq rest ok (k + 1) = ((rest.take (j + 1)).map histFragment, false) := by
            refine ih ok (k + 1) j (by simpa using hj) (fun i hi => ?_) ?_
            · have heq : k + 1 + i = k + (i + 1) := by omega
              rw [heq]
              exact hpre (i + 1) (by omega)
            · have heq : k + 1 + j = k + (j + 1) := by omega
              rw [heq]
              exact hfail
          simp [writeSeq, h0, hrest]

/-- C3 counterexample to the claim as stated: replay does not render to the same
display format as live broadcast.  For the same stored update, sendHistory writes
the plain history fragment while send delivers the live fragment carrying the
class attribute, and the two byte strings differ. -/
theorem sendHistory_format_cex :
    (Topic.sendHistory ⟨∅, [⟨"2024-05-06 07:08:09", "A"⟩]⟩ (fun _ => true)).1
      = ["<div><p>A</p><time>2024-05-06 07:08:09</time></div>"]
  ∧ (Topic.send ⟨{0}, []⟩ ⟨"2024-05-06 07:08:09", "A"⟩ (fun _ => [])).2 0
      = ["<div class=\"new\"><p>A</p><time>2024-05-06 07:08:09</time></div>"]
  ∧ ("<div><p>A</p><time>2024-05-06 07:08:09</time></div>" : String)
      ≠ "<div class=\"new\"><p>A</p><time>2024-05-06 07:08:09</time></div>" := by
  exact ⟨rfl, by decide, by decide⟩

/-- C3 amended: replayHistory renders each stored Update, oldest to newest, to the
history display format, which differs from the live-broadcast format only by the
absence of the new-marker class attribute, writes each rendered fragment to the
output sink in that order, and stops at the first failed write, propagating the
failure: when every write succeeds, exactly the fragments of the whole history are
written in order with success reported; when the write of index k is the first to
fail, exactly the fragments of the first k+1 entries have been passed to the sink
and failure is reported. -/
theorem sendHistory_order (t : Topic) (ok : Nat → Bool) :
    ((∀ i, i < t.history.length → ok i = true) →
       Topic.sendHistory t ok = (t.history.map histFragment, true))
  ∧ (∀ k, k < t.history.length → (∀ i, i < k → ok i = true) → ok k = false →
       Topic.sendHistory t ok = ((t.history.take (k + 1)).map histFragment, false)) := by
  constructor
  · intro h
    exact writeSeq_ok t.history ok 0 fun i hi => by simpa using h i hi
  · intro k hk hpre hfail
    exact writeSeq_fail t.history ok 0 k hk (fun i hi => by simpa using hpre i hi)
      (by simpa using hfail)

/-- Topic used by the replay witnesses. -/
def replayTopic : Topic := ⟨∅, [⟨"T1", "A"⟩, ⟨"T2", "B"⟩]⟩

/-- C3 witness: a two-entry history replayed once with all writes succeeding and
once with the second write failing. -/
theorem sendHistory_order_witness :
    Topic.sendHistory replayTopic (fun _ => true)
      = (["<div><p>A</p><time>T1</time></div>", "<div><p>B</p><time>T2</time></div>"], true)
  ∧ Topic.sendHistory replayTopic (fun i => decide (i = 0))
      = (["<div><p>A</p><time>T1</time></div>", "<div><p>B</p><time>T2</time></div>"], false) := by
  constructor
  · rw [(sendHistory_order replayTopic (fun _ => true)).1 (fun i _ => rfl)]
    rfl
  · rw [(sendHistory_order replayTopic (fun i => decide (i = 0))).2 1 (by decide)
      (by decide) (by decide)]
    rfl

/-- Registry with one topic, room, holding one subscriber channel 1. -/
def appOne : App := ⟨fun n => if n = "room" then some ⟨{1}, []⟩ else none⟩

/-- Registry with one topic, room, holding subscriber channels 1 and 2. -/
def appTwo : App := ⟨fun n => if n = "room" then some ⟨{1, 2}, []⟩ else none⟩

/-- The empty registry. -/
def appEmpty : App := ⟨fun _ => none⟩

/-- C5: after the last subscriber channel of a topic unsubscribes, the topic is
absent from the registry mapping; a removal that leaves the subscriber set
non-empty keeps the topic registered, with only that channel deleted and the
history intact; and a subscribe to a name absent from the registry creates a
fresh Topic with empty history. -/
theorem removeChan_gc (app : App) (topic : String) (ch : Nat) (t : Topic)
    (h : app.topics topic = some t) :
    (t.chans = {ch} → (App.removeChan app topic ch).topics topic = none)
  ∧ ((t.chans.erase ch).Nonempty →
       (App.removeChan app topic ch).topics topic = some (Topic.unsubscribe t ch))
  ∧ (∀ (app2 : App) (ch2 : Nat), app2.topics topic = none →
       (App.addChan app2 topic ch2).1.topics topic = some ⟨{ch2}, []⟩
     ∧ (App.addChan app2 topic ch2).2.history = []) := by
  refine ⟨fun hone => ?_, fun hne => ?_, fun app2 ch2 h2 => ?_⟩
  · simp only [App.removeChan, h]
    rw [if_pos (by simp [Topic.unsubscribe, hone])]
    simp
  · simp only [App.removeChan, h]
    rw [if_neg (by simp [Topic.unsubscribe, Finset.card_eq_zero]; exact Finset.nonempty_iff_ne_empty.mp hne)]
    simp
  · simp only [App.addChan, h2]
    exact ⟨by simp [Topic.subscribe, NewTopic], rfl⟩

/-- C5 witness: removing the only subscriber of room evicts the topic, and a fresh
subscribe on an empty registry creates a fresh topic with empty history. -/
theorem removeChan_gc_witness :
    (App.removeChan appOne "room" 1).topics "room" = none
  ∧ (App.addChan appEmpty "room" 7).1.topics "room" = some ⟨{7}, []⟩ := by
  constructor
  · exact (removeChan_gc appOne "room" 1 ⟨{1}, []⟩ (by decide)).1 rfl
  · exact ((removeChan_gc appOne "room" 1 ⟨{1}, []⟩ (by decide)).2.2 appEmpty 7 rfl).1

/-- C8: unsubscribing a channel that is not currently registered under the topic
name, including names absent from the registry, never fails and leaves the whole
registry mapping unchanged, hence the subscriber sets and histories of every
registered topic; the hypothesis that every registered topic has at least one
subscriber is an invariant of every reachable registry. -/
theorem removeChan_noop (app : App) (topic : String) (ch : Nat)
    (hinv : ∀ n t, app.topics n = some t → t.chans.Nonempty)
    (hch : ∀ t, app.topics topic = some t → ch ∉ t.chans) :
    ∀ n, (App.removeChan app topic ch).topics n = app.topics n := by
  intro n
  cases h : app.topics topic with
  | none => simp only [App.removeChan, h]
  | some t =>
      have h1 : t.chans.erase ch = t.chans := Finset.erase_eq_of_not_mem (hch t h)
      have h2 : ¬((Topic.unsubscribe t ch).chans.card = 0) := by
        simp only [Topic.unsubscribe, h1, Finset.card_eq_zero]
        exact Finset.nonempty_iff_ne_empty.mp (hinv topic t h)
      simp only [App.removeChan, h]
      rw [if_neg h2]
      show (if n = topic then some (Topic.unsubscribe t ch) else app.topics n) = app.topics n
      by_cases hn : n = topic
      · subst hn
        rw [if_pos rfl, h]
        simp [Topic.unsubscribe, h1]
      · rw [if_neg hn]

/-- C8 witness: removing a channel that is not subscribed to room, and removing a
channel under a name absent from the registry, both leave the registry unchanged. -/
theorem removeChan_noop_witness :
    (App.removeChan appOne "room" 2).topics "room" = appOne.topics "room"
  ∧ (App.removeChan appOne "nowhere" 1).topics "nowhere" = appOne.topics "nowhere" := by
  have hinv : ∀ n t, appOne.topics n = some t → t.chans.Nonempty := by
    intro n t h
    by_cases hn : n = "room"
    · rw [show appOne.topics n = some ⟨{1}, []⟩ by simp [appOne, hn]] at h
      cases h
      exact ⟨1, by simp⟩
    · simp [appOne, hn] at h
  constructor
  · refine removeChan_noop appOne "room" 2 hinv ?_ "room"
    intro t h
    rw [show appOne.topics "room" = some ⟨{1}, []⟩ from rfl] at h
    cases h
    decide
  · refine removeChan_noop appOne "nowhere" 1 hinv ?_ "nowhere"
    intro t h
    simp [appOne] at h

/-- Subscribing preserves the invariant that every registered topic has at least
one subscriber: the registry starts empty and only addChan and removeChan touch
it, so every reachable registry satisfies the invariant. -/
theorem addChan_preserves_nonempty (app : App) (topic : String) (ch : Nat)
    (hinv : ∀ n t, app.topics n = some t → t.chans.Nonempty) :
    ∀ n t, (App.addChan app topic ch).1.topics n = some t → t.chans.Nonempty := by
  intro n t h
  cases happ : app.topics topic with
  | some t0 =>
      simp only [App.addChan, happ] at h
      by_cases hn : n = topic
      · rw [if_pos hn] at h
        cases h
        exact ⟨ch, Finset.mem_insert_self ch t0.chans⟩
      · rw [if_neg hn] at h
        exact hinv n t h
  | none =>
      simp only [App.addChan, happ] at h
      by_cases hn : n = topic
      · rw [if_pos hn] at h
        cases h
        exact ⟨ch, Finset.mem_insert_self ch NewTopic.chans⟩
      · rw [if_neg hn] at h
        exact hinv n t h

/-- Unsubscribing preserves the invariant that every registered topic has at
least one subscriber. -/
theorem removeChan_preserves_nonempty (app : App) (topic : String) (ch : Nat)
    (hinv : ∀ n t, app.topics n = some t → t.chans.Nonempty) :
    ∀ n t, (App.removeChan app topic ch).topics n = some t → t.chans.Nonempty := by
  intro n t h
  cases happ : app.topics topic with
  | none =>
      simp only [App.removeChan, happ] at h
      exact hinv n t h
  | some t0 =>
      simp only [App.removeChan, happ] at h
      by_cases hz : (Topic.unsubscribe t0 ch).chans.card = 0
      · rw [if_pos hz] at h
        dsimp only at h
        by_cases hn : n = topic
        · rw [if_pos hn] at h
          cases h
        · rw [if_neg hn] at h
          exact hinv n t h
      · rw [if_neg hz] at h
        dsimp only at h
        by_cases hn : n = topic
        · rw [if_pos hn] at h
          cases h
          exact Finset.card_pos.mp (by omega)
        · rw [if_neg hn] at h
          exact hinv n t h

/-- A broadcast enqueues at most one payload on any channel queue. -/
theorem send_enqueues_at_most_one (t : Topic) (u : Update) (q : Queues) (c : Nat) :
    ((Topic.send t u q).2 c).length ≤ (q c).length + 1 := by
  simp only [Topic.send, trySend]
  split
  · split <;> simp
  · simp

/-- C10: subscribing a channel that is already registered under the topic is
idempotent: the registry mapping is unchanged, the subscriber-set size used by the
count announcement does not double-count the channel, a single broadcast enqueues
at most one payload on its queue, and a single unsubscribe removes the channel
completely from whatever topic state remains registered. -/
theorem addChan_idempotent (app : App) (topic : String) (ch : Nat) (t : Topic)
    (h : app.topics topic = some t) (hch : ch ∈ t.chans) :
    (App.addChan app topic ch).1.topics = app.topics
  ∧ (App.addChan app topic ch).2.chans.card = t.chans.card
  ∧ (∀ (u : Update) (q : Queues) (c : Nat),
       ((Topic.send (App.addChan app topic ch).2 u q).2 c).length ≤ (q c).length + 1)
  ∧ (∀ t2, (App.removeChan (App.addChan app topic ch).1 topic ch).topics topic = some t2 →
       ch ∉ t2.chans) := by
  have hsub : Topic.subscribe t ch = t := by
    simp [Topic.subscribe, Finset.insert_eq_self.mpr hch]
  have h1 : (App.addChan app topic ch).1.topics = app.topics := by
    funext n
    simp only [App.addChan, h, hsub]
    by_cases hn : n = topic
    · subst hn; rw [if_pos rfl, h]
    · rw [if_neg hn]
  refine ⟨h1, ?_, ?_, ?_⟩
  · simp only [App.addChan, h, hsub]
  · intro u q c
    exact send_enqueues_at_most_one _ u q c
  · intro t2 ht2
    have happ : (App.addChan app topic ch).1 = app := congrArg App.mk h1
    rw [happ] at ht2
    simp only [App.removeChan, h] at ht2
    by_cases hz : (Topic.unsubscribe t ch).chans.card = 0
    · rw [if_pos hz] at ht2
      simp at ht2
    · rw [if_neg hz] at ht2
      simp only [if_pos rfl] at ht2
      cases ht2
      exact Finset.not_mem_erase ch t.chans

/-- C10 witness: channel 1 is already subscribed to room in a registry where room
has subscribers 1 and 2. -/
theorem addChan_idempotent_witness :
    (App.addChan appTwo "room" 1).1.topics "room" = appTwo.topics "room"
  ∧ (App.addChan appTwo "room" 1).2.chans.card = 2
  ∧ ((Topic.send (App.addChan appTwo "room" 1).2 ⟨"T", "A"⟩ (fun _ => [])).2 1).length ≤ 1
  ∧ 1 ∉ (Topic.mk {2} [] : Topic).chans := by
  have H := addChan_idempotent appTwo "room" 1 ⟨{1, 2}, []⟩ (by decide) (by decide)
  refine ⟨congrFun H.1 "room", H.2.1.trans (by decide), ?_, ?_⟩
  · exact H.2.2.1 ⟨"T", "A"⟩ (fun _ => []) 1
  · exact H.2.2.2 ⟨{2}, []⟩ (by decide)

theorem subscribeAll_chans (cs : List Nat) : ∀ t : Topic,
    (subscribeAll t cs).chans = t.chans ∪ cs.toFinset := by
  induction cs with
  | nil => intro t; simp [subscribeAll]
  | cons c cs ih =>
      intro t
      show (subscribeAll (Topic.subscribe t c) cs).chans = _
      rw [ih]
      simp only [Topic.subscribe, List.toFinset_cons]
      ext x
      simp

theorem unsubscribeAll_chans (rs : List Nat) : ∀ t : Topic,
    (unsubscribeAll t rs).chans = t.chans \ rs.toFinset := by
  induction rs with
  | nil => intro t; simp [unsubscribeAll]
  | cons r rs ih =>
      intro t
      show (unsubscribeAll (Topic.unsubscribe t r) rs).chans = _
      rw [ih]
      simp only [Topic.unsubscribe, List.toFinset_cons]
      ext x
      simp [Finset.mem_erase]
      tauto

/-- C6: after M distinct channels subscribe to a topic and R of them unsubscribe,
the subscriber-set size announced by updateCount is M minus R, and the fragment
enqueued on every subscribed channel with spare queue room is exactly the style
fragment carrying that number. -/
theorem updateCount_accuracy (cs rs : List Nat) (h1 : cs.Nodup) (h2 : rs.Nodup)
    (h3 : ∀ x ∈ rs, x ∈ cs) :
    (unsubscribeAll (subscribeAll NewTopic cs) rs).chans.card = cs.length - rs.length
  ∧ (∀ (q : Queues) (c : Nat),
      c ∈ (unsubscribeAll (subscribeAll NewTopic cs) rs).chans → (q c).length < bufferSize →
        Topic.updateCount (unsubscribeAll (subscribeAll NewTopic cs) rs) q c
          = q c ++ ["<style>#nc::before\x7bcontent:\""
              ++ natString (cs.length - rs.length) ++ "\"\x7d</style>"]) := by
  have hchans : (unsubscribeAll (subscribeAll NewTopic cs) rs).chans
      = cs.toFinset \ rs.toFinset := by
    rw [unsubscribeAll_chans, subscribeAll_chans]
    simp [NewTopic]
  have hsubset : rs.toFinset ⊆ cs.toFinset := by
    intro x hx
    rw [List.mem_toFinset] at hx ⊢
    exact h3 x hx
  have hcard : (unsubscribeAll (subscribeAll NewTopic cs) rs).chans.card
      = cs.length - rs.length := by
    rw [hchans, Finset.card_sdiff hsubset, List.toFinset_card_of_nodup h1,
      List.toFinset_card_of_nodup h2]
  refine ⟨hcard, fun q c hc hlen => ?_⟩
  show (if c ∈ (unsubscribeAll (subscribeAll NewTopic cs) rs).chans
    then trySend (q c) (countFragment (unsubscribeAll (subscribeAll NewTopic cs) rs).chans.card)
    else q c) = _
  rw [if_pos hc, hcard]
  unfold trySend countFragment
  rw [if_pos hlen]

/-- C6 witness: three subscribes then one unsubscribe announce the count 2. -/
theorem updateCount_accuracy_witness :
    (unsubscribeAll (subscribeAll NewTopic [4, 5, 6]) [5]).chans.card = 2
  ∧ Topic.updateCount (unsubscribeAll (subscribeAll NewTopic [4, 5, 6]) [5]) (fun _ => []) 4
      = ["<style>#nc::before\x7bcontent:\"2\"\x7d</style>"] := by
  have H := updateCount_accuracy [4, 5, 6] [5] (by decide) (by decide) (by decide)
  refine ⟨H.1, ?_⟩
  rw [H.2 (fun _ => []) 4 (by decide) (by decide)]
  decide

theorem dropWhile_head_false (p : Char → Bool) (l : List Char) (c : Char)
    (rest : List Char) (h : l.dropWhile p = c :: rest) : p c = false := by
  induction l with
  | nil => simp at h
  | cons a l ih =>
      by_cases ha : p a
      · rw [List.dropWhile_cons, if_pos ha] at h
        exact ih h
      · rw [List.dropWhile_cons, if_neg ha] at h
        cases h
        simpa using ha

theorem trimSpace_nil_all_space (s : List Char) (h : trimSpace s = []) :
    ∀ c ∈ s, goIsSpace c := by
  intro c hc
  unfold trimSpace at h
  rw [List.rdropWhile_eq_nil_iff] at h
  rw [← List.takeWhile_append_dropWhile (p := goIsSpace) (l := s)] at hc
  rcases List.mem_append.mp hc with hc | hc
  · exact List.mem_takeWhile_imp hc
  · exact h c hc

theorem escapeChar_space (c : Char) (h : goIsSpace c) : escapeChar c = [c] := by
  simp only [goIsSpace, Bool.or_eq_true, beq_iff_eq] at h
  rcases h with ((((((h | h) | h) | h) | h) | h) | h) | h <;> subst h <;> decide

theorem htmlEscape_all_space (s : List Char) (h : ∀ c ∈ s, goIsSpace c) :
    htmlEscape s = s := by
  induction s with
  | nil => rfl
  | cons c s ih =>
      show escapeChar c ++ htmlEscape s = c :: s
      rw [escapeChar_space c (h c (by simp)), ih fun x hx => h x (by simp [hx])]
      rfl

/-- C7: a submitted message that trims to the empty string is a no-op of the whole
ingest path: the registry is unchanged, so no Update is constructed and no history
grows, and every channel queue is unchanged, so nothing is broadcast. -/
theorem postHandler_empty_noop (app : App) (topic : String) (raw : List Char)
    (now : DateTime) (q : Queues) (h : trimSpace raw = []) :
    App.PostHandler app topic raw now q = (app, q) := by
  have hall : ∀ c ∈ raw, goIsSpace c := trimSpace_nil_all_space raw h
  have hesc : htmlEscape raw = raw := htmlEscape_all_space raw hall
  cases happ : app.topics topic with
  | none => simp only [App.PostHandler, happ]
  | some t =>
      simp only [App.PostHandler, happ, hesc, h]
      simp

/-- C7 witness: a message of two blanks posted to a registered topic changes
nothing. -/
theorem postHandler_empty_noop_witness :
    App.PostHandler appOne "room" [' ', ' '] ⟨2024, 5, 6, 7, 8, 9⟩ (fun _ => [])
      = (appOne, fun _ => []) :=
  postHandler_empty_noop appOne "room" [' ', ' '] ⟨2024, 5, 6, 7, 8, 9⟩ (fun _ => [])
    (by decide)

theorem escapeChar_length (c : Char) : (escapeChar c).length ≤ 5 := by
  unfold escapeChar
  repeat' split
  all_goals simp

theorem htmlEscape_length (s : List Char) : (htmlEscape s).length ≤ 5 * s.length := by
  induction s with
  | nil => simp [htmlEscape]
  | cons c s ih =>
      have h1 : (escapeChar c).length ≤ 5 := escapeChar_length c
      show (escapeChar c ++ htmlEscape s).length ≤ 5 * (c :: s).length
      rw [List.length_append]
      simp only [List.length_cons]
      omega

theorem trimSpace_length_le (s : List Char) : (trimSpace s).length ≤ s.length := by
  have h1 : (List.rdropWhile goIsSpace (s.dropWhile goIsSpace)).length
      ≤ (s.dropWhile goIsSpace).length :=
    (List.rdropWhile_prefix goIsSpace (s.dropWhile goIsSpace)).length_le
  have h2 : (s.dropWhile goIsSpace).length ≤ s.length :=
    (List.dropWhile_suffix goIsSpace).length_le
  exact le_trans h1 h2

theorem utf8Len_pos (c : Char) : 1 ≤ utf8Len c := by
  unfold utf8Len
  repeat' split
  all_goals omega

theorem length_le_byteLen (s : List Char) : s.length ≤ byteLen s := by
  induction s with
  | nil => simp [byteLen]
  | cons c s ih =>
      have h1 : 1 ≤ utf8Len c := utf8Len_pos c
      show (c :: s).length ≤ byteLen (c :: s)
      simp only [List.length_cons, byteLen, List.map_cons, List.sum_cons]
      have h2 : s.length ≤ byteLen s := ih
      simp only [byteLen] at h2
      omega

theorem trimSpace_idem (s : List Char) : trimSpace (trimSpace s) = trimSpace s := by
  have h1 : (trimSpace s).dropWhile goIsSpace = trimSpace s := by
    cases hR : trimSpace s with
    | nil => simp
    | cons c rest =>
        obtain ⟨tail, htail⟩ := List.rdropWhile_prefix goIsSpace (s.dropWhile goIsSpace)
        rw [show List.rdropWhile goIsSpace (s.dropWhile goIsSpace) = trimSpace s from rfl,
          hR] at htail
        have hdw : s.dropWhile goIsSpace = c :: (rest ++ tail) := by
          rw [← htail]
          rfl
        have hc : goIsSpace c = false := dropWhile_head_false goIsSpace s c (rest ++ tail) hdw
        simp [List.dropWhile_cons, hc]
  show List.rdropWhile goIsSpace ((trimSpace s).dropWhile goIsSpace) = trimSpace s
  rw [h1]
  show List.rdropWhile goIsSpace (List.rdropWhile goIsSpace (s.dropWhile goIsSpace))
    = List.rdropWhile goIsSpace (s.dropWhile goIsSpace)
  exact List.rdropWhile_idempotent goIsSpace (s.dropWhile goIsSpace)

/-- The lengths of the messages stored under a topic name, used to exhibit stored
message sizes on concrete runs. -/
def storedMsgLens (app : App) (topic : String) : List Nat :=
  match app.topics topic with
  | none => []
  | some t => t.history.map fun u => u.message.length

/-- Characterization of the registry after one post: every stored update either
was already stored, or is the single new update built from the trimmed escaped
raw message and the formatted current time, constructed only when the raw
message fit the byte bound and trimmed to something non-empty. -/
theorem postHandler_new_update (app : App) (topic : String) (raw : List Char)
    (now : DateTime) (q : Queues) (t2 : Topic)
    (h2 : (App.PostHandler app topic raw now q).1.topics topic = some t2) :
    ∀ v ∈ t2.history,
      (∃ t0, app.topics topic = some t0 ∧ v ∈ t0.history)
    ∨ (v = ⟨formatTimestamp now, String.mk (trimSpace (htmlEscape raw))⟩
       ∧ 0 < (trimSpace (htmlEscape raw)).length
       ∧ ¬(byteLen raw > maxMsgLen)) := by
  intro v hv
  cases happ : app.topics topic with
  | none =>
      simp only [App.PostHandler, happ] at h2
      exact absurd h2 (by simp)
  | some t =>
      simp only [App.PostHandler, happ] at h2
      by_cases hlen : byteLen raw > maxMsgLen
      · rw [if_pos hlen] at h2
        have h2' : app.topics topic = some t2 := h2
        rw [happ] at h2'
        cases h2'
        exact Or.inl ⟨t2, rfl, hv⟩
      · rw [if_neg hlen] at h2
        by_cases hne : 0 < (trimSpace (htmlEscape raw)).length
        · rw [if_pos hne] at h2
          have h2' : some ((Topic.send t
              ⟨formatTimestamp now, String.mk (trimSpace (htmlEscape raw))⟩ q).1) = some t2 := by
            simpa using h2
          cases h2'
          rw [show (Topic.send t
              ⟨formatTimestamp now, String.mk (trimSpace (htmlEscape raw))⟩ q).1
            = Topic.append t ⟨formatTimestamp now, String.mk (trimSpace (htmlEscape raw))⟩
            from rfl, append_history] at hv
          have hv2 : v ∈ t.history
              ++ [(⟨formatTimestamp now, String.mk (trimSpace (htmlEscape raw))⟩ : Update)] :=
            List.drop_subset _ _ hv
          rcases List.mem_append.mp hv2 with hv3 | hv3
          · exact Or.inl ⟨t, rfl, hv3⟩
          · exact Or.inr ⟨by simpa using hv3, hne, hlen⟩
        · rw [if_neg hne] at h2
          have h2' : app.topics topic = some t2 := h2
          rw [happ] at h2'
          cases h2'
          exact Or.inl ⟨t2, rfl, hv⟩

/-- C4 counterexample to the claim as stated: a raw message of 257 repetitions of
the less-than sign passes the byte-length check, which runs before HTML escaping,
and is then escaped to 1028 characters, so the stored message exceeds maxMsgLen. -/
theorem postHandler_escape_cex :
    storedMsgLens (App.PostHandler appOne "room" (List.replicate 257 '<')
        ⟨2024, 5, 6, 7, 8, 9⟩ (fun _ => [])).1 "room" = [1028]
  ∧ maxMsgLen < 1028 := by
  constructor
  · decide
  · decide

/-- C4 amended: every update stored after a post either was already stored, or is
the new one, whose message is the trimmed HTML-escaped raw submission: it is
non-empty, trimmed, and was constructed only when the raw submission was at most
maxMsgLen bytes before escaping; since escaping expands one character to at most
five, the stored message holds at most 5 times maxMsgLen characters, but it may
exceed maxMsgLen itself. -/
theorem postHandler_message_bound (app : App) (topic : String) (raw : List Char)
    (now : DateTime) (q : Queues) (t2 : Topic)
    (h2 : (App.PostHandler app topic raw now q).1.topics topic = some t2) :
    ∀ v ∈ t2.history,
      (∃ t0, app.topics topic = some t0 ∧ v ∈ t0.history)
    ∨ (v.message.data = trimSpace (htmlEscape raw)
       ∧ v.message.data ≠ []
       ∧ trimSpace v.message.data = v.message.data
       ∧ byteLen raw ≤ maxMsgLen
       ∧ v.message.length ≤ 5 * maxMsgLen) := by
  intro v hv
  rcases postHandler_new_update app topic raw now q t2 h2 v hv with h | ⟨hveq, hne, hlen⟩
  · exact Or.inl h
  · right
    subst hveq
    refine ⟨rfl, ?_, trimSpace_idem (htmlEscape raw), by omega, ?_⟩
    · intro hnil
      rw [show ((⟨formatTimestamp now, String.mk (trimSpace (htmlEscape raw))⟩ :
          Update)).message.data = trimSpace (htmlEscape raw) from rfl] at hnil
      rw [hnil] at hne
      simp at hne
    · have e1 : (htmlEscape raw).length ≤ 5 * raw.length := htmlEscape_length raw
      have e2 : (trimSpace (htmlEscape raw)).length ≤ (htmlEscape raw).length :=
        trimSpace_length_le (htmlEscape raw)
      have e3 : raw.length ≤ byteLen raw := length_le_byteLen raw
      show (trimSpace (htmlEscape raw)).length ≤ 5 * maxMsgLen
      omega

/-- Update stored by the post exercised in the C4 witness. -/
def postedUpdate : Update := ⟨"2024-05-06 07:08:09", "hi"⟩

/-- C4 witness: posting the two-character message hi to a registered topic stores
an update whose message is the trimmed escaped raw text within all bounds. -/
theorem postHandler_message_bound_witness :
    (∃ t0, appOne.topics "room" = some t0 ∧ postedUpdate ∈ t0.history)
  ∨ (postedUpdate.message.data = trimSpace (htmlEscape ['h', 'i'])
     ∧ postedUpdate.message.data ≠ []
     ∧ trimSpace postedUpdate.message.data = postedUpdate.message.data
     ∧ byteLen ['h', 'i'] ≤ maxMsgLen
     ∧ postedUpdate.message.length ≤ 5 * maxMsgLen) :=
  postHandler_message_bound appOne "room" ['h', 'i'] ⟨2024, 5, 6, 7, 8, 9⟩ (fun _ => [])
    ⟨{1}, [postedUpdate]⟩ (by decide) postedUpdate (by decide)

theorem digitChar_isDigit : ∀ m < 10, (digitChar m).isDigit = true := by decide

theorem natDigitsAux_digits : ∀ (fuel n : Nat), ∀ c ∈ natDigitsAux fuel n,
    c.isDigit = true := by
  intro fuel
  induction fuel with
  | zero => intro n c hc; simp [natDigitsAux] at hc
  | succ fuel ih =>
      intro n c hc
      simp only [natDigitsAux] at hc
      by_cases h : n < 10
      · rw [if_pos h] at hc
        have : c = digitChar n := by simpa using hc
        subst this
        exact digitChar_isDigit n h
      · rw [if_neg h] at hc
        rcases List.mem_append.mp hc with hc | hc
        · exact ih (n / 10) c hc
        · have : c = digitChar (n % 10) := by simpa using hc
          subst this
          exact digitChar_isDigit (n % 10) (Nat.mod_lt n (by omega))

theorem natDigits_digits (n : Nat) : ∀ c ∈ natDigits n, c.isDigit = true :=
  natDigitsAux_digits (n + 1) n

theorem natDigitsAux_length : ∀ (fuel k n : Nat), n < 10 ^ k → 1 ≤ k →
    (natDigitsAux fuel n).length ≤ k := by
  intro fuel
  induction fuel with
  | zero => intro k n _ _; simp [natDigitsAux]
  | succ fuel ih =>
      intro k n hn hk
      simp only [natDigitsAux]
      by_cases h : n < 10
      · rw [if_pos h]
        simpa using hk
      · rw [if_neg h]
        have hk2 : 2 ≤ k := by
          by_contra hcon
          have hk1 : k = 1 := by omega
          subst hk1
          rw [pow_one] at hn
          exact h hn
        have hdiv : n / 10 < 10 ^ (k - 1) := by
          rw [Nat.div_lt_iff_lt_mul (by omega)]
          have hpow : (10 : Nat) ^ (k - 1) * 10 = 10 ^ k := by
            rw [← pow_succ]
            congr 1
            omega
          omega
        have hrec := ih (k - 1) (n / 10) hdiv (by omega)
        rw [List.length_append]
        simp only [List.length_singleton]
        omega

theorem natDigits_length_le (k n : Nat) (hn : n < 10 ^ k) (hk : 1 ≤ k) :
    (natDigits n).length ≤ k := natDigitsAux_length (n + 1) k n hn hk

theorem zeroPad_length (w : Nat) (s : List Char) (h : s.length ≤ w) :
    (zeroPad w s).length = w := by
  simp [zeroPad]
  omega

theorem zeroPad_digits (w : Nat) (s : List Char) (h : ∀ c ∈ s, c.isDigit = true) :
    ∀ c ∈ zeroPad w s, c.isDigit = true := by
  intro c hc
  rcases List.mem_append.mp hc with hc | hc
  · rw [List.eq_of_mem_replicate hc]
    decide
  · exact h c hc

/-- C9: the payload Topic.send enqueues is exactly the live div fragment with the
new class wrapping the escaped message and the timestamp; every update the ingest
path stores that was not already stored carries formatTimestamp of the current
UTC wall-clock reading as its timestamp; and formatTimestamp renders exactly the
shape YYYY-MM-DD HH:MM:SS: four year digits, dash, two month digits, dash, two
day digits, space, two hour digits, colon, two minute digits, colon, two second
digits, for every in-range wall-clock reading. -/
theorem send_payload_timestamp (t : Topic) (u : Update) (q : Queues) (c : Nat)
    (now : DateTime)
    (hc : c ∈ t.chans) (hq : (q c).length < bufferSize)
    (hy : now.year < 10000) (hmo : now.month < 100) (hd : now.day < 100)
    (hh : now.hour < 100) (hmi : now.minute < 100) (hs : now.second < 100) :
    (Topic.send t u q).2 c
      = q c ++ ["<div class=\"new\"><p>" ++ u.message ++ "</p><time>"
          ++ u.timestamp ++ "</time></div>"]
  ∧ (∀ (app : App) (topic : String) (raw : List Char) (t2 : Topic),
       (App.PostHandler app topic raw now q).1.topics topic = some t2 →
       ∀ v ∈ t2.history,
         (∃ t0, app.topics topic = some t0 ∧ v ∈ t0.history)
       ∨ v.timestamp = formatTimestamp now)
  ∧ (∃ Y MO D H MI S : List Char,
       (formatTimestamp now).data
         = Y ++ '-' :: (MO ++ '-' :: (D ++ ' ' :: (H ++ ':' :: (MI ++ ':' :: S))))
     ∧ Y.length = 4 ∧ MO.length = 2 ∧ D.length = 2 ∧ H.length = 2 ∧ MI.length = 2
     ∧ S.length = 2
     ∧ (∀ e ∈ Y, e.isDigit = true) ∧ (∀ e ∈ MO, e.isDigit = true)
     ∧ (∀ e ∈ D, e.isDigit = true) ∧ (∀ e ∈ H, e.isDigit = true)
     ∧ (∀ e ∈ MI, e.isDigit = true) ∧ (∀ e ∈ S, e.isDigit = true)) := by
  have h100 : (100 : Nat) = 10 ^ 2 := by norm_num
  have hlen2 : ∀ m : Nat, m < 100 → (zeroPad 2 (natDigits m)).length = 2 := by
    intro m hm
    exact zeroPad_length 2 _ (natDigits_length_le 2 m (by omega) (by omega))
  refine ⟨?_, ?_, ?_⟩
  · simp only [Topic.send, trySend, append_chans]
    rw [if_pos hc, if_pos hq]
    rfl
  · intro app topic raw t2 h2 v hv
    rcases postHandler_new_update app topic raw now q t2 h2 v hv with h | ⟨hveq, _, _⟩
    · exact Or.inl h
    · subst hveq
      exact Or.inr rfl
  · refine ⟨zeroPad 4 (natDigits now.year), zeroPad 2 (natDigits now.month),
      zeroPad 2 (natDigits now.day), zeroPad 2 (natDigits now.hour),
      zeroPad 2 (natDigits now.minute), zeroPad 2 (natDigits now.second),
      rfl, ?_, hlen2 _ hmo, hlen2 _ hd, hlen2 _ hh, hlen2 _ hmi, hlen2 _ hs,
      zeroPad_digits _ _ (natDigits_digits _), zeroPad_digits _ _ (natDigits_digits _),
      zeroPad_digits _ _ (natDigits_digits _), zeroPad_digits _ _ (natDigits_digits _),
      zeroPad_digits _ _ (natDigits_digits _), zeroPad_digits _ _ (natDigits_digits _)⟩
    have h10000 : (10000 : Nat) = 10 ^ 4 := by norm_num
    exact zeroPad_length 4 _ (natDigits_length_le 4 now.year (by omega) (by omega))

/-- C9 witness: a concrete broadcast payload and the 19-character timestamp shape
at the concrete time 2024-05-06 07:08:09. -/
theorem send_payload_timestamp_witness :
    (Topic.send ⟨{1}, []⟩ ⟨"T", "A"⟩ (fun _ => [])).2 1
      = ["<div class=\"new\"><p>A</p><time>T</time></div>"]
  ∧ (formatTimestamp ⟨2024, 5, 6, 7, 8, 9⟩).data.length = 19 := by
  have H := send_payload_timestamp ⟨{1}, []⟩ ⟨"T", "A"⟩ (fun _ => []) 1
    ⟨2024, 5, 6, 7, 8, 9⟩ (by decide) (by decide) (by decide) (by decide) (by decide)
    (by decide) (by decide) (by decide)
  refine ⟨H.1, ?_⟩
  obtain ⟨Y, MO, D, Hr, MI, S, hdata, hY, hMO, hD, hH, hMI, hS, _⟩ := H.2.2
  rw [hdata]
  simp only [List.length_append, List.length_cons, hY, hMO, hD, hH, hMI, hS]

end NoscriptChat
